import Mathlib

/-!
Verification model of the `blog-dub-ja` pipeline (blog_dub_ja.js / index.js).

Strings are modelled as `List Char`.  External child processes are modelled by
an explicit `ChildBehavior` value (the chunks the child emits on stdout and its
exit code, or a spawn failure), so every operation of the program becomes a
pure, executable function of its inputs and of the behavior of the children it
spawns.
-/

namespace BlogDub

/-- Model of the JavaScript `\s` character class (as used by `String.trim`,
`replace(/\s+/g, ...)` and the regex `\{\s*"`): ASCII whitespace plus the
Unicode space separators and line terminators recognised by JS. -/
def jsWhitespace (c : Char) : Bool :=
  decide ((9 ≤ c.toNat ∧ c.toNat ≤ 13) ∨ c.toNat = 32 ∨ c.toNat = 0xa0 ∨
    c.toNat = 0x1680 ∨ (0x2000 ≤ c.toNat ∧ c.toNat ≤ 0x200a) ∨
    c.toNat = 0x2028 ∨ c.toNat = 0x2029 ∨ c.toNat = 0x202f ∨
    c.toNat = 0x205f ∨ c.toNat = 0x3000 ∨ c.toNat = 0xfeff)

/-- JS line terminators (`\n`, `\r`, U+2028, U+2029): the positions after which
`^` matches under the regex `m` flag, and the characters `.` does not match. -/
def jsLineTerm (c : Char) : Bool :=
  decide (c = '\n' ∨ c = '\r' ∨ c.toNat = 0x2028 ∨ c.toNat = 0x2029)

/-- Model of JavaScript `String.prototype.trim`: strip leading and trailing
`\s` characters. -/
def jsTrim (s : List Char) : List Char :=
  ((s.dropWhile jsWhitespace).reverse.dropWhile jsWhitespace).reverse

/-- The behavior of one spawned child process, as observed by the parent:
either the spawn itself fails (`error` event, e.g. missing executable), or the
child emits a sequence of stdout chunks and exits with a code. -/
inductive ChildBehavior where
  | spawnFail (msg : List Char)
  | exits (chunks : List (List Char)) (code : Int)

/-- Errors of the pipeline, mirroring the `Error` values thrown by the source:
`spawnError` for a failed spawn, `exitError` for a non-zero exit code,
`parseError` for the JSON-recovery failures of the extraction stage, and
`jsTypeError` for the TypeError raised when a truthy non-string body reaches
the runner's `inputBody.trim()` call. -/
inductive ParseFail where
  | jsonNotFound
  | badJson
deriving DecidableEq

inductive PipelineError where
  | spawnError (msg : List Char)
  | exitError (code : Int)
  | parseError (f : ParseFail)
  | jsTypeError
deriving DecidableEq

/-- What `CommandRunner.run` resolves with: the trimmed captured stdout when
`captureOutput` is true, or the bare success flag (`resolve(true)`) when the
child's stdout was inherited. -/
inductive RunOutcome where
  | captured (text : List Char)
  | streamed
deriving DecidableEq

/-- Record of one `spawn` call: the command, its arguments, whether (and with
what body) `child.stdin.write` was invoked, whether `child.stdin.end` ran, and
the capture mode of stdout. -/
structure SpawnRecord where
  command : List Char
  args : List (List Char)
  stdinWritten : Option (List Char)
  stdinClosed : Bool
  captureOutput : Bool
deriving DecidableEq

/-- Model of the stdin write decision in `CommandRunner.run`:
`if (inputBody && inputBody.trim().length > 0) child.stdin.write(inputBody)`.
The guard is truthiness of `inputBody` (non-null, non-empty string) together
with a non-empty trim. -/
def stdinAction (inputBody : Option (List Char)) : Option (List Char) :=
  match inputBody with
  | none => none
  | some b => if b ≠ [] ∧ jsTrim b ≠ [] then some b else none

/-- Model of `CommandRunner.run(command, args, inputBody, captureOutput)` from
blog_dub_ja.js lines 21-56 (identical in index.js), applied to a child with
the given behavior.  Returns the record of the spawn together with the settled
promise: `resolve(captureOutput ? outputData.trim() : true)` on exit code 0,
`reject(Process exited with code …)` on a non-zero code, and
`reject(Failed to start process: …)` on a spawn error.  `outputData` is the
fold of `outputData += chunk` over the chunks in arrival order.  The executor
runs `child.stdin.end()` unconditionally, so `stdinClosed` is true in every
case. -/
def runSpawn (command : List Char) (args : List (List Char))
    (inputBody : Option (List Char)) (captureOutput : Bool)
    (beh : ChildBehavior) : SpawnRecord × Except PipelineError RunOutcome :=
  let r : SpawnRecord :=
    { command := command, args := args, stdinWritten := stdinAction inputBody,
      stdinClosed := true, captureOutput := captureOutput }
  match beh with
  | .spawnFail msg => (r, .error (.spawnError msg))
  | .exits chunks code =>
      (r, if code ≠ 0 then .error (.exitError code)
          else if captureOutput then
            .ok (.captured (jsTrim (chunks.foldl (fun a b => a ++ b) [])))
          else .ok .streamed)

/-- The text of a captured outcome (the `streamed` case cannot occur when the
runner was invoked with `captureOutput = true`). -/
def capturedText : RunOutcome → List Char
  | .captured t => t
  | .streamed => []

/-- `CommandRunner.run` specialised to `captureOutput = true`, as every
capture-enabled stage wrapper calls it. -/
def runCap (command : List Char) (args : List (List Char))
    (inputBody : Option (List Char)) (beh : ChildBehavior) :
    SpawnRecord × Except PipelineError (List Char) :=
  let (r, res) := runSpawn command args inputBody true beh
  (r, res.map capturedText)

/-! ### JSON values and a model of the host platform's `JSON.parse`

`JSON.parse` is a platform function, not repository code; it is modelled by an
executable parser of the standard JSON grammar.  Number tokens are kept as
their source lexemes (sign, digits, fraction, exponent) so that no
floating-point arithmetic is involved.  `\uXXXX` escapes denoting surrogate
code units are rejected, since Lean characters are Unicode scalar values;
such escapes are outside the fragment the pipeline's claims exercise. -/

inductive JVal where
  | null
  | bool (b : Bool)
  | num (lexeme : List Char)
  | str (s : List Char)
  | arr (elems : List JVal)
  | obj (fields : List (List Char × JVal))

/-- JSON insignificant whitespace (space, tab, line feed, carriage return). -/
def jsonWs (c : Char) : Bool :=
  c == ' ' || c == '\t' || c == '\n' || c == '\r'

def hexVal (c : Char) : Option Nat :=
  if '0' ≤ c ∧ c ≤ '9' then some (c.toNat - 48)
  else if 'a' ≤ c ∧ c ≤ 'f' then some (c.toNat - 87)
  else if 'A' ≤ c ∧ c ≤ 'F' then some (c.toNat - 55)
  else none

/-- Parse the body of a JSON string (after the opening quote), returning the
decoded characters and the rest of the input after the closing quote. -/
def parseStringBody : List Char → Option (List Char × List Char)
  | [] => none
  | c :: rest =>
    if c = '"' then some ([], rest)
    else if c = '\\' then
      match rest with
      | [] => none
      | e :: rest2 =>
        if e = '"' ∨ e = '\\' ∨ e = '/' then
          (parseStringBody rest2).map (fun p => (e :: p.1, p.2))
        else if e = 'b' then
          (parseStringBody rest2).map (fun p => (Char.ofNat 8 :: p.1, p.2))
        else if e = 'f' then
          (parseStringBody rest2).map (fun p => (Char.ofNat 12 :: p.1, p.2))
        else if e = 'n' then
          (parseStringBody rest2).map (fun p => ('\n' :: p.1, p.2))
        else if e = 'r' then
          (parseStringBody rest2).map (fun p => ('\r' :: p.1, p.2))
        else if e = 't' then
          (parseStringBody rest2).map (fun p => ('\t' :: p.1, p.2))
        else if e = 'u' then
          match rest2 with
          | h1 :: h2 :: h3 :: h4 :: rest3 =>
            match hexVal h1, hexVal h2, hexVal h3, hexVal h4 with
            | some a, some b, some c2, some d =>
              let n := ((a * 16 + b) * 16 + c2) * 16 + d
              if n < 0xd800 ∨ (0xdfff < n ∧ n < 0x110000) then
                (parseStringBody rest3).map (fun p => (Char.ofNat n :: p.1, p.2))
              else none
            | _, _, _, _ => none
          | _ => none
        else none
    else if c.toNat < 32 then none
    else (parseStringBody rest).map (fun p => (c :: p.1, p.2))

/-- Parse the fraction and exponent tail of a JSON number after the integer
part `acc`, returning the full lexeme. -/
def parseNumberTail (acc : List Char) (s : List Char) :
    Option (List Char × List Char) :=
  let (acc1, s1) :=
    match s with
    | '.' :: r =>
        let ds := r.takeWhile Char.isDigit
        if ds = [] then ([], s) else (acc ++ '.' :: ds, r.dropWhile Char.isDigit)
    | _ => (acc, s)
  if acc1 = [] then none
  else
    match s1 with
    | 'e' :: r => parseExponent acc1 'e' r
    | 'E' :: r => parseExponent acc1 'E' r
    | _ => some (acc1, s1)
where
  parseExponent (acc1 : List Char) (e : Char) (r : List Char) :
      Option (List Char × List Char) :=
    let (sgn, r1) :=
      match r with
      | '+' :: r2 => (['+'], r2)
      | '-' :: r2 => (['-'], r2)
      | _ => ([], r)
    let ds := r1.takeWhile Char.isDigit
    if ds = [] then none
    else some (acc1 ++ e :: sgn ++ ds, r1.dropWhile Char.isDigit)

/-- Parse a JSON number token, returning its lexeme and the remaining input. -/
def parseNumberLex (s : List Char) : Option (List Char × List Char) :=
  let (sgn, s1) := match s with | '-' :: r => (['-'], r) | _ => (([] : List Char), s)
  match s1 with
  | '0' :: r => parseNumberTail (sgn ++ ['0']) r
  | c :: r =>
      if c.isDigit then
        parseNumberTail (sgn ++ c :: r.takeWhile Char.isDigit)
          (r.dropWhile Char.isDigit)
      else none
  | [] => none

mutual

/-- Parse one JSON value (leading whitespace allowed).  The fuel only bounds
the recursion; `input.length + 1` is always sufficient because every recursive
call is preceded by the consumption of at least one input character. -/
def parseValue : Nat → List Char → Option (JVal × List Char)
  | 0, _ => none
  | fuel + 1, s =>
    let s1 := s.dropWhile jsonWs
    match s1 with
    | '{' :: rest =>
        let rest1 := rest.dropWhile jsonWs
        match rest1 with
        | '}' :: r => some (.obj [], r)
        | _ => (parseMembers fuel rest1).map (fun p => (.obj p.1, p.2))
    | '[' :: rest =>
        let rest1 := rest.dropWhile jsonWs
        match rest1 with
        | ']' :: r => some (.arr [], r)
        | _ => (parseElems fuel rest1).map (fun p => (.arr p.1, p.2))
    | '"' :: rest => (parseStringBody rest).map (fun p => (.str p.1, p.2))
    | _ =>
        if List.isPrefixOf ("true".data) s1 then some (.bool true, s1.drop 4)
        else if List.isPrefixOf ("false".data) s1 then some (.bool false, s1.drop 5)
        else if List.isPrefixOf ("null".data) s1 then some (.null, s1.drop 4)
        else (parseNumberLex s1).map (fun p => (.num p.1, p.2))

/-- Parse the members of a JSON object after its opening brace (first key
expected at the head of the input). -/
def parseMembers : Nat → List Char → Option (List (List Char × JVal) × List Char)
  | 0, _ => none
  | fuel + 1, s =>
    match s with
    | '"' :: rest =>
      match parseStringBody rest with
      | none => none
      | some (key, r1) =>
        match r1.dropWhile jsonWs with
        | ':' :: r3 =>
          match parseValue fuel r3 with
          | none => none
          | some (v, r4) =>
            match r4.dropWhile jsonWs with
            | ',' :: r6 =>
                (parseMembers fuel (r6.dropWhile jsonWs)).map
                  (fun p => ((key, v) :: p.1, p.2))
            | '}' :: r6 => some ([(key, v)], r6)
            | _ => none
        | _ => none
    | _ => none

/-- Parse the elements of a JSON array after its opening bracket. -/
def parseElems : Nat → List Char → Option (List JVal × List Char)
  | 0, _ => none
  | fuel + 1, s =>
    match parseValue fuel s with
    | none => none
    | some (v, r1) =>
      match r1.dropWhile jsonWs with
      | ',' :: r2 => (parseElems fuel r2).map (fun p => (v :: p.1, p.2))
      | ']' :: r2 => some ([v], r2)
      | _ => none

end

/-- Model of `JSON.parse`: one value, optionally surrounded by whitespace,
with nothing after it. -/
def jsonParse (s : List Char) : Option JVal :=
  match parseValue (s.length + 1) s with
  | some (v, rest) => if rest.dropWhile jsonWs = [] then some v else none
  | none => none

/-! ### JSON recovery from noisy extraction output (`BlogDubber.extract`) -/

/-- Does the regex `\{\s*"` match at the head of `s`?  An opening brace,
then a maximal run of `\s`, whose first following character is a quote
(backtracking cannot help since `"` is not in `\s`). -/
def braceQuoteHead (s : List Char) : Bool :=
  match s with
  | '{' :: rest =>
      match rest.dropWhile jsWhitespace with
      | '"' :: _ => true
      | _ => false
  | _ => false

/-- Model of `rawOutput.match(/\{\s*"/).index`: index of the first position
at which the brace-then-quote pattern matches, if any. -/
def findBraceQuote : List Char → Option Nat
  | [] => none
  | c :: cs =>
      if braceQuoteHead (c :: cs) then some 0
      else (findBraceQuote cs).map (· + 1)

/-- Model of `rawOutput.lastIndexOf(brace)` for the closing brace
(`-1` becomes `none`). -/
def lastBraceIdx : List Char → Option Nat
  | [] => none
  | c :: cs =>
      match lastBraceIdx cs with
      | some i => some (i + 1)
      | none => if c = '}' then some 0 else none

/-- Model of JavaScript `String.prototype.substring(a, b)`: both indices are
clamped to the string length and swapped when `a > b`. -/
def jsSubstring (s : List Char) (a b : Nat) : List Char :=
  let a1 := min a s.length
  let b1 := min b s.length
  (s.take (max a1 b1)).drop (min a1 b1)

/-- The extraction-output example of the specification:
`"[env] booting\n{ \"title\": \"T\", \"content\": \"C\" }\ntrailer"`. -/
def exampleChunk : List Char :=
  "[env] booting\n\x7b \"title\": \"T\", \"content\": \"C\" \x7d\ntrailer".data

/-- Model of the JSON-recovery `try` block of `BlogDubber.extract`
(blog_dub_ja.js lines 134-143): find the boundaries, slice, parse, and wrap
every failure in the `Extraction failed: …` error of the surrounding catch. -/
def jsonRecover (rawOutput : List Char) : Except PipelineError JVal :=
  match findBraceQuote rawOutput, lastBraceIdx rawOutput with
  | some jsonStart, some jsonEnd =>
      match jsonParse (jsSubstring rawOutput jsonStart (jsonEnd + 1)) with
      | some v => .ok v
      | none => .error (.parseError .badJson)
  | _, _ => .error (.parseError .jsonNotFound)

/-! ### Banner stripping (`BlogDubber.translate`) -/

/-- Split a string at JS line terminators: the list of terminator-free
segments together with the list of terminators between them (one fewer than
the segments). -/
def splitSegs : List Char → List (List Char) × List Char
  | [] => ([[]], [])
  | c :: cs =>
      let p := splitSegs cs
      if jsLineTerm c then ([] :: p.1, c :: p.2)
      else ((c :: p.1.headI) :: p.1.tail, p.2)

/-- Rejoin segments with the separators between them. -/
def joinSegs : List (List Char) → List Char → List Char
  | [], _ => []
  | [l], _ => l
  | l :: ls, t :: ts => l ++ t :: joinSegs ls ts
  | l :: ls, [] => l ++ joinSegs ls []

/-- The banner prefix of the regex `/^\[dotenv@.+/gm`. -/
def dotenvMark : List Char := "[dotenv@".data

/-- Does the regex `^\[dotenv@.+` match a (terminator-free) line?  It needs
the literal prefix and at least one further character. -/
def dotenvLineHit (l : List Char) : Bool :=
  List.isPrefixOf dotenvMark l && decide (dotenvMark.length < l.length)

/-- Model of `output.replace(/^\[dotenv@.+/gm, '')`: under the `m` flag `^`
matches at the start of every terminator-delimited line, and `.` cannot cross
a terminator, so the replacement empties exactly the matching lines while
keeping every terminator. -/
def stripDotenv (s : List Char) : List Char :=
  joinSegs (((splitSegs s).1).map (fun l => if dotenvLineHit l then [] else l))
    ((splitSegs s).2)

/-- The `\n`-separated lines of a string (as produced when no other line
terminators occur). -/
def linesOf : List Char → List (List Char)
  | [] => [[]]
  | c :: cs =>
      if c = '\n' then [] :: linesOf cs
      else (c :: (linesOf cs).headI) :: (linesOf cs).tail

/-! ### Filename sanitization (`DirectoryManager._sanitizeFilename`) -/

/-- The character class of `replace(/[<>:"\/\\|?*]+/g, '')`. -/
def illegalFileChar (c : Char) : Bool :=
  c == '<' || c == '>' || c == ':' || c == '"' || c == '/' ||
  c == '\\' || c == '|' || c == '?' || c == '*'

/-- One pass of `replace(/\s+/g, '_')`: each maximal run of `\s` becomes a
single underscore.  The flag records whether the previous character was
whitespace (i.e. whether we are inside a run that already emitted its
underscore). -/
def collapseWsGo : Bool → List Char → List Char
  | _, [] => []
  | prevWs, c :: cs =>
      if jsWhitespace c then
        if prevWs then collapseWsGo true cs
        else '_' :: collapseWsGo true cs
      else c :: collapseWsGo false cs

def collapseWs (s : List Char) : List Char := collapseWsGo false s

/-- Model of `_sanitizeFilename` (blog_dub_ja.js line 116):
`name.replace(/[<>:"\/\\|?*]+/g, '').replace(/\s+/g, '_').slice(0, 50)`. -/
def sanitizeFilename (name : List Char) : List Char :=
  (collapseWs (name.filter (fun c => !illegalFileChar c))).take 50

/-! ### Error messages and the stage wrappers -/

def intToChars (i : Int) : List Char :=
  if i < 0 then '-' :: Nat.toDigits 10 i.natAbs else Nat.toDigits 10 i.natAbs

/-- The `message` of each error, as the source builds it.  For `badJson` the
text after the fixed `Extraction failed: ` wrapper is produced by the host
JSON parser, outside this repository; only the wrapper prefix is modelled. -/
def errMessage : PipelineError → List Char
  | .spawnError m => ("Failed to start process: ".data) ++ m
  | .exitError code => ("Process exited with code ".data) ++ intToChars code
  | .parseError .jsonNotFound => "Extraction failed: JSON not found in output".data
  | .parseError .badJson => "Extraction failed: ".data
  | .jsTypeError => "inputBody.trim is not a function".data

/-- `needle` occurs contiguously inside `hay`. -/
def containsSub (needle hay : List Char) : Bool :=
  hay.tails.any (fun t => List.isPrefixOf needle t)

/-- The `--debug-dir` arguments appended when a debug path is configured. -/
def debugArgs : Option (List Char) → List (List Char)
  | some p => ["--debug-dir".data, p]
  | none => []

/-- Model of `BlogDubber.extract` (blog_dub_ja.js lines 129-144): run
`npx extract-readability <url> [--debug-dir p]` with capture and no stdin;
runner failures propagate unwrapped (the `await` sits outside the `try`),
and the captured output goes through the JSON recovery. -/
def extractStage (url : List Char) (debugPath : Option (List Char))
    (beh : ChildBehavior) : SpawnRecord × Except PipelineError JVal :=
  let args := ["extract-readability".data, url] ++ debugArgs debugPath
  let (r, res) := runCap ("npx".data) args none beh
  (r, res.bind jsonRecover)

/-- JS truthiness of the values `JSON.parse` can produce (the `!text` guard
of `translate` and `generateAudio`). -/
def jvTruthy : JVal → Bool
  | .null => false
  | .bool b => b
  | .num lex =>
      -- a JSON number is falsy exactly when its value is zero, i.e. every
      -- mantissa digit (before any exponent marker) is 0
      !((lex.takeWhile (fun c => !(c == 'e' || c == 'E'))).filter
          Char.isDigit).all (· == '0')
  | .str s => !s.isEmpty
  | .arr _ => true
  | .obj _ => true

/-- Model of `BlogDubber.translate` (blog_dub_ja.js lines 146-158).  The
argument is whatever JS value the caller passes (`article.content` can be any
JSON value, or `undefined` = `none`); falsy input short-circuits to the empty
string without a spawn.  A truthy non-string reaches
`inputBody.trim()` inside the runner's executor, which throws a TypeError
after the spawn but before `child.stdin.end()`.  For a string, the capture is
banner-stripped and trimmed. -/
def translateStage (text : Option JVal) (debugPath : Option (List Char))
    (beh : ChildBehavior) :
    Option SpawnRecord × Except PipelineError (List Char) :=
  match text with
  | none => (none, .ok [])
  | some v =>
    if jvTruthy v then
      let args := ["translate-to-ja".data] ++ debugArgs debugPath
      match v with
      | .str s =>
          let (r, res) := runCap ("npx".data) args (some s) beh
          (some r, res.map (fun out => jsTrim (stripDotenv out)))
      | _ =>
          (some { command := "npx".data, args := args, stdinWritten := none,
                  stdinClosed := false, captureOutput := true },
           .error .jsTypeError)
    else (none, .ok [])

/-- Model of `BlogDubber.generateAudio` (blog_dub_ja.js lines 160-165): falsy
narration returns without a spawn; otherwise `npx text-to-speech -o <path>
--model gpt-4o-mini-tts [--debug-dir p]` runs with capture disabled and the
narration piped to stdin. -/
def generateAudioStage (text : Option JVal) (outputPath : List Char)
    (debugPath : Option (List Char)) (beh : ChildBehavior) :
    Option SpawnRecord × Except PipelineError Unit :=
  match text with
  | none => (none, .ok ())
  | some v =>
    if jvTruthy v then
      let args := ["text-to-speech".data, "-o".data, outputPath,
        "--model".data, "gpt-4o-mini-tts".data] ++ debugArgs debugPath
      match v with
      | .str s =>
          let (r, res) := runSpawn ("npx".data) args (some s) false beh
          (some r, res.map (fun _ => ()))
      | _ =>
          (some { command := "npx".data, args := args, stdinWritten := none,
                  stdinClosed := false, captureOutput := false },
           .error .jsTypeError)
    else (none, .ok ())

/-! ### The orchestrator (`BlogDubber.execute`, blog_dub_ja.js lines 192-234) -/

/-- Property access `article.key` on a parsed JSON value: only objects have
data fields, and a duplicated key keeps its last occurrence (as `JSON.parse`
builds the object). -/
def jlookup (v : JVal) (key : List Char) : Option JVal :=
  match v with
  | .obj fields => ((fields.filter (fun p => p.1 == key)).getLast?).map (·.2)
  | _ => none

/-- Template-literal stringification of `article.title` (`${article.title}`).
`undefined` prints as `undefined`; numbers are shown by their lexeme (the
host normalises some spellings, e.g. `1e2` to `100`; the difference never
reaches a claim); arrays are shown shallowly via `Array.prototype.join`. -/
def jvDisplayShallow : JVal → List Char
  | .null => []
  | .bool true => "true".data
  | .bool false => "false".data
  | .num lex => lex
  | .str s => s
  | .arr _ => []
  | .obj _ => "[object Object]".data

def jvDisplay : Option JVal → List Char
  | none => "undefined".data
  | some .null => "null".data
  | some (.bool true) => "true".data
  | some (.bool false) => "false".data
  | some (.num lex) => lex
  | some (.str s) => s
  | some (.obj _) => "[object Object]".data
  | some (.arr es) =>
      match es.map jvDisplayShallow with
      | [] => []
      | d :: ds => ds.foldl (fun a b => a ++ ',' :: b) d

/-- POSIX `path.join` of two relative components. -/
def pathJoin (a b : List Char) : List Char := a ++ '/' :: b

/-- The behaviors of the (up to four) children a run may spawn, in pipeline
order. -/
structure Env where
  extractChild : ChildBehavior
  titleChild : ChildBehavior
  contentChild : ChildBehavior
  ttsChild : ChildBehavior

/-- Observable outcome of one `execute` run: the spawns in order, the failure
messages the catch handler printed (`console.error('❌ Error:', …)`), the text
artifact written by `fs.writeFileSync`, and the process exit code
(`process.exit(1)` in the catch handler, 0 otherwise). -/
structure ExecResult where
  spawns : List SpawnRecord
  failureReports : List PipelineError
  savedText : Option (List Char)
  exitCode : Nat

/-- Model of `BlogDubber.execute` after the project name is settled
(blog_dub_ja.js lines 192-234): the `try` block runs
extract → translate title → translate content → save text → generateAudio,
each stage a function of the previous results and of the corresponding
child's behavior; the single `catch` records one failure line and exits
with code 1. -/
def execute (url projectName ts : List Char) (isDebug : Bool) (env : Env) :
    ExecResult :=
  let projectDir := pathJoin ("outputs".data) (sanitizeFilename projectName)
  let dbg := fun (key : List Char) =>
    if isDebug then some (pathJoin (pathJoin projectDir (("debug_".data) ++ ts)) key)
    else none
  let (r1, aRes) := extractStage url (dbg ("extract-readability".data)) env.extractChild
  match aRes with
  | .error e => { spawns := [r1], failureReports := [e], savedText := none, exitCode := 1 }
  | .ok article =>
    let titleInput :=
      ("Translate this title to Japanese: ".data) ++ jvDisplay (jlookup article ("title".data))
    let (r2, tRes) :=
      translateStage (some (.str titleInput)) (dbg ("translate-to-ja-title".data)) env.titleChild
    match tRes with
    | .error e =>
        { spawns := [r1] ++ r2.toList, failureReports := [e], savedText := none, exitCode := 1 }
    | .ok titleJa =>
      let (r3, cRes) :=
        translateStage (jlookup article ("content".data))
          (dbg ("translate-to-ja-content".data)) env.contentChild
      match cRes with
      | .error e =>
          { spawns := [r1] ++ r2.toList ++ r3.toList, failureReports := [e],
            savedText := none, exitCode := 1 }
      | .ok contentJa =>
        let textData := ("Title: ".data) ++ titleJa ++ ('\n' :: '\n' :: contentJa)
        let audioPath :=
          pathJoin projectDir (sanitizeFilename projectName ++ '_' :: ts ++ ".mp3".data)
        let (r4, gRes) :=
          generateAudioStage (some (.str contentJa)) audioPath
            (dbg ("text-to-speech".data)) env.ttsChild
        match gRes with
        | .error e =>
            { spawns := [r1] ++ r2.toList ++ r3.toList ++ r4.toList,
              failureReports := [e], savedText := some textData, exitCode := 1 }
        | .ok _ =>
            { spawns := [r1] ++ r2.toList ++ r3.toList ++ r4.toList,
              failureReports := [], savedText := some textData, exitCode := 0 }

/-! ## General lemmas -/

theorem foldl_append_eq_join (l : List (List Char)) (acc : List Char) :
    l.foldl (fun a b => a ++ b) acc = acc ++ l.flatten := by
  induction l generalizing acc with
  | nil => simp
  | cons x xs ih => simp [List.foldl_cons, ih, List.append_assoc]

theorem dropWhile_eq_nil_iff_all {p : Char → Bool} {l : List Char} :
    l.dropWhile p = [] ↔ ∀ c ∈ l, p c = true := by
  induction l with
  | nil => simp
  | cons x xs ih =>
      rw [List.dropWhile_cons]
      by_cases h : p x = true
      · simp [h, ih]
      · simp only [h, if_false]
        constructor
        · intro hcontr
          exact absurd hcontr (List.cons_ne_nil x xs)
        · intro hall
          exact absurd (hall x (List.mem_cons_self x xs)) (by simp [h])

theorem jsTrim_eq_nil_iff {b : List Char} :
    jsTrim b = [] ↔ ∀ c ∈ b, jsWhitespace c = true := by
  unfold jsTrim
  rw [List.reverse_eq_nil_iff, dropWhile_eq_nil_iff_all]
  constructor
  · intro h c hc
    by_cases hws : jsWhitespace c = true
    · exact hws
    · have hmem : c ∈ b.dropWhile jsWhitespace := by
        have hsplit := List.takeWhile_append_dropWhile (p := jsWhitespace) (l := b)
        rw [← hsplit] at hc
        rcases List.mem_append.mp hc with h1 | h2
        · exact absurd (List.mem_takeWhile_imp h1) hws
        · exact h2
      exact h c (List.mem_reverse.mpr hmem)
  · intro h c hc
    exact h c (List.Sublist.mem (List.mem_reverse.mp hc)
      (List.dropWhile_sublist jsWhitespace))

theorem jsTrim_ne_nil_iff {b : List Char} :
    jsTrim b ≠ [] ↔ ∃ c ∈ b, jsWhitespace c = false := by
  rw [Ne, jsTrim_eq_nil_iff]
  push_neg
  simp [Bool.not_eq_true]

/-! ## C4: captured run with exit code 0 -/

/-- C4: for every capture-enabled invocation of the runner whose child exits
with code 0, the resolved result is the concatenation of all stdout chunks in
arrival order, trimmed of leading and trailing whitespace. -/
theorem captured_run_returns_trimmed_concat (cmd : List Char)
    (args : List (List Char)) (body : Option (List Char))
    (chunks : List (List Char)) (code : Int) (h : code = 0) :
    (runSpawn cmd args body true (.exits chunks code)).2 =
      .ok (.captured (jsTrim chunks.flatten)) := by
  subst h
  simp [runSpawn, foldl_append_eq_join]

theorem captured_run_returns_trimmed_concat_witness :
    (runSpawn ("npx".data) [] none true
        (.exits [(" a".data), ("b ".data)] 0)).2 =
      .ok (.captured ("ab".data)) := by
  rw [captured_run_returns_trimmed_concat ("npx".data) [] none
    [(" a".data), ("b ".data)] 0 rfl]
  rfl

/-! ## C5: non-zero exit code -/

/-- C5: for every invocation of the runner whose child exits with a non-zero
code, the operation fails with an exit error carrying that exact code,
regardless of any output captured before the exit. -/
theorem nonzero_exit_rejects_with_code (cmd : List Char)
    (args : List (List Char)) (body : Option (List Char)) (cap : Bool)
    (chunks : List (List Char)) (code : Int) (h : code ≠ 0) :
    (runSpawn cmd args body cap (.exits chunks code)).2 =
      .error (.exitError code) := by
  simp [runSpawn, h]

theorem nonzero_exit_rejects_with_code_witness :
    (runSpawn ("npx".data) [] none true
        (.exits [("partial output".data)] 2)).2 =
      .error (.exitError 2) :=
  nonzero_exit_rejects_with_code ("npx".data) [] none true
    [("partial output".data)] 2 (by decide)

/-! ## C6: stdin write condition and closing -/

/-- C6: for every invocation of the runner, the stdin body is written exactly
when it is non-empty and contains at least one non-whitespace character, and
the child's input stream is closed in every case. -/
theorem stdin_write_iff_nonblank_and_always_closed (cmd : List Char)
    (args : List (List Char)) (body : Option (List Char)) (cap : Bool)
    (beh : ChildBehavior) :
    (runSpawn cmd args body cap beh).1.stdinClosed = true ∧
    (body = none → (runSpawn cmd args body cap beh).1.stdinWritten = none) ∧
    (∀ b, body = some b →
      ((runSpawn cmd args body cap beh).1.stdinWritten = some b ↔
        (b ≠ [] ∧ ∃ c ∈ b, jsWhitespace c = false))) := by
  have hrec : (runSpawn cmd args body cap beh).1 =
      { command := cmd, args := args, stdinWritten := stdinAction body,
        stdinClosed := true, captureOutput := cap } := by
    cases beh <;> rfl
  refine ⟨by rw [hrec], ?_, ?_⟩
  · intro hb
    subst hb
    rw [hrec]
    rfl
  · intro b hb
    subst hb
    rw [hrec]
    show stdinAction (some b) = some b ↔ _
    have hsa : stdinAction (some b) =
        if b ≠ [] ∧ jsTrim b ≠ [] then some b else none := rfl
    rw [hsa]
    by_cases hcond : b ≠ [] ∧ jsTrim b ≠ []
    · rw [if_pos hcond]
      exact ⟨fun _ => ⟨hcond.1, jsTrim_ne_nil_iff.mp hcond.2⟩, fun _ => rfl⟩
    · rw [if_neg hcond]
      constructor
      · intro hfalse
        exact absurd hfalse (by simp)
      · intro hrhs
        exact absurd ⟨hrhs.1, jsTrim_ne_nil_iff.mpr hrhs.2⟩ hcond

theorem stdin_write_iff_nonblank_and_always_closed_witness :
    ((runSpawn ("npx".data) [] (some (" x".data)) true (.exits [] 0)).1.stdinWritten
        = some (" x".data) ↔
      ((" x".data) ≠ [] ∧ ∃ c ∈ (" x".data), jsWhitespace c = false)) :=
  (stdin_write_iff_nonblank_and_always_closed ("npx".data) [] (some (" x".data))
    true (.exits [] 0)).2.2 (" x".data) rfl

/-! ## C8: empty inputs short-circuit without a spawn -/

/-- C8: empty input text makes `translate` return the empty string with no
subprocess, and empty narration makes `generateAudio` return with no
subprocess. -/
theorem empty_input_skips_subprocess (d : Option (List Char)) (p : List Char)
    (beh : ChildBehavior) :
    translateStage (some (.str [])) d beh = (none, .ok []) ∧
    translateStage none d beh = (none, .ok []) ∧
    generateAudioStage (some (.str [])) p d beh = (none, .ok ()) ∧
    generateAudioStage none p d beh = (none, .ok ()) :=
  ⟨rfl, rfl, rfl, rfl⟩

/-! ## C9: filename sanitization -/

theorem mem_collapseWsGo {flag : Bool} {l : List Char} {c : Char}
    (h : c ∈ collapseWsGo flag l) :
    c = '_' ∨ (c ∈ l ∧ jsWhitespace c = false) := by
  induction l generalizing flag with
  | nil => cases h
  | cons x xs ih =>
      by_cases hx : jsWhitespace x = true
      · by_cases hf : flag = true
        · subst hf
          rw [collapseWsGo, if_pos hx, if_pos rfl] at h
          rcases ih h with h1 | ⟨h2, h3⟩
          · exact Or.inl h1
          · exact Or.inr ⟨List.mem_cons_of_mem x h2, h3⟩
        · have hf' : flag = false := by
            cases flag
            · rfl
            · exact absurd rfl hf
          subst hf'
          rw [collapseWsGo, if_pos hx, if_neg (by simp)] at h
          rcases List.mem_cons.mp h with h1 | h1
          · exact Or.inl h1
          · rcases ih h1 with h2 | ⟨h3, h4⟩
            · exact Or.inl h2
            · exact Or.inr ⟨List.mem_cons_of_mem x h3, h4⟩
      · rw [collapseWsGo, if_neg hx] at h
        rcases List.mem_cons.mp h with h1 | h1
        · subst h1
          exact Or.inr ⟨List.mem_cons_self c xs, by simp at hx; exact hx⟩
        · rcases ih h1 with h2 | ⟨h3, h4⟩
          · exact Or.inl h2
          · exact Or.inr ⟨List.mem_cons_of_mem x h3, h4⟩

/-- C9: sanitization removes the fixed set of filesystem-illegal characters,
collapses whitespace runs to single underscores, truncates to 50 characters,
and on the documented example yields `My_TitleName`. -/
theorem sanitize_filename_spec :
    sanitizeFilename ("My: Title/Name?".data) = "My_TitleName".data ∧
    (∀ name : List Char, (sanitizeFilename name).length ≤ 50) ∧
    (∀ name : List Char, ∀ c ∈ sanitizeFilename name,
      illegalFileChar c = false ∧ jsWhitespace c = false) := by
  refine ⟨by decide, ?_, ?_⟩
  · intro name
    rw [sanitizeFilename, List.length_take]
    exact inf_le_left
  · intro name c hc
    have hc1 : c ∈ collapseWs (name.filter (fun c => !illegalFileChar c)) :=
      List.mem_of_mem_take hc
    rcases mem_collapseWsGo hc1 with h1 | ⟨h2, h3⟩
    · subst h1
      exact ⟨by decide, by decide⟩
    · have hfil := (List.mem_filter.mp h2).2
      refine ⟨?_, h3⟩
      cases hill : illegalFileChar c
      · rfl
      · rw [hill] at hfil
        exact absurd hfil (by decide)

theorem sanitize_filename_spec_witness :
    illegalFileChar 'a' = false ∧ jsWhitespace 'a' = false :=
  sanitize_filename_spec.2.2 ("a b".data) 'a' (by decide)

/-! ## C10: whitespace-only text does not short-circuit -/

/-- C10: non-empty all-whitespace input reaches the translation subprocess:
one process is spawned, nothing is written to its stdin (the runner's
non-whitespace check suppresses the write), the stream is closed, and the
result is the banner-stripped trimmed capture. -/
theorem blank_text_spawns_translation (text : List Char) (h1 : text ≠ [])
    (h2 : ∀ c ∈ text, jsWhitespace c = true) (d : Option (List Char))
    (chunks : List (List Char)) :
    translateStage (some (.str text)) d (.exits chunks 0) =
      (some { command := "npx".data,
              args := ["translate-to-ja".data] ++ debugArgs d,
              stdinWritten := none, stdinClosed := true, captureOutput := true },
       .ok (jsTrim (stripDotenv (jsTrim chunks.flatten)))) := by
  have htrim : jsTrim text = [] := jsTrim_eq_nil_iff.mpr h2
  have htr : jvTruthy (.str text) = true := by
    cases text with
    | nil => exact absurd rfl h1
    | cons c cs => rfl
  simp [translateStage, htr, runCap, runSpawn, stdinAction, htrim,
    capturedText, foldl_append_eq_join, Except.map]

theorem blank_text_spawns_translation_witness :
    translateStage (some (.str (" ".data))) none (.exits [("ok".data)] 0) =
      (some { command := "npx".data, args := [("translate-to-ja".data)],
              stdinWritten := none, stdinClosed := true, captureOutput := true },
       .ok ("ok".data)) := by
  rw [blank_text_spawns_translation (" ".data) (by decide) (by decide) none
    [("ok".data)]]
  rfl

/-! ## C1: extraction failure aborts the pipeline -/

theorem extractStage_exit_failure (url : List Char) (dp : Option (List Char))
    (chunks : List (List Char)) (code : Int) (h : code ≠ 0) :
    extractStage url dp (.exits chunks code) =
      ({ command := "npx".data,
         args := ["extract-readability".data, url] ++ debugArgs dp,
         stdinWritten := none, stdinClosed := true, captureOutput := true },
       .error (.exitError code)) := by
  simp [extractStage, runCap, runSpawn, stdinAction, h, Except.map, Except.bind]

/-- C1: in every pipeline run whose extraction child exits with a non-zero
code, the run spawns only the extraction process (never a translation or
synthesis one), the single catch point records exactly one failure line
carrying that exit error, and the process exit code is 1. -/
theorem extract_failure_aborts_pipeline (url pn ts : List Char)
    (isDebug : Bool) (env : Env) (chunks : List (List Char)) (code : Int)
    (h1 : env.extractChild = .exits chunks code) (h2 : code ≠ 0) :
    (execute url pn ts isDebug env).exitCode = 1 ∧
    (execute url pn ts isDebug env).failureReports = [.exitError code] ∧
    (execute url pn ts isDebug env).spawns.length = 1 ∧
    (∀ r ∈ (execute url pn ts isDebug env).spawns,
      r.args.head? ≠ some ("translate-to-ja".data) ∧
      r.args.head? ≠ some ("text-to-speech".data)) := by
  have hex : execute url pn ts isDebug env =
      { spawns := [{ command := "npx".data,
                     args := ["extract-readability".data, url] ++
                       debugArgs (if isDebug then
                         some (pathJoin (pathJoin
                           (pathJoin ("outputs".data) (sanitizeFilename pn))
                           (("debug_".data) ++ ts)) ("extract-readability".data))
                         else none),
                     stdinWritten := none, stdinClosed := true,
                     captureOutput := true }],
        failureReports := [.exitError code], savedText := none,
        exitCode := 1 } := by
    rw [execute, h1, extractStage_exit_failure url _ chunks code h2]
  rw [hex]
  refine ⟨rfl, rfl, rfl, ?_⟩
  intro r hr
  rcases List.mem_singleton.mp hr with rfl
  constructor
  · intro hcontra
    exact absurd (show some ("extract-readability".data) =
      some ("translate-to-ja".data) from hcontra) (by decide)
  · intro hcontra
    exact absurd (show some ("extract-readability".data) =
      some ("text-to-speech".data) from hcontra) (by decide)

theorem extract_failure_aborts_pipeline_witness :
    (execute ("https://example.com/post".data) ("post".data)
        ("20260101_000000".data) false
        ⟨.exits [] 2, .exits [] 0, .exits [] 0, .exits [] 0⟩).exitCode = 1 ∧
    (execute ("https://example.com/post".data) ("post".data)
        ("20260101_000000".data) false
        ⟨.exits [] 2, .exits [] 0, .exits [] 0, .exits [] 0⟩).failureReports =
      [.exitError 2] ∧
    (execute ("https://example.com/post".data) ("post".data)
        ("20260101_000000".data) false
        ⟨.exits [] 2, .exits [] 0, .exits [] 0, .exits [] 0⟩).spawns.length = 1 ∧
    (∀ r ∈ (execute ("https://example.com/post".data) ("post".data)
        ("20260101_000000".data) false
        ⟨.exits [] 2, .exits [] 0, .exits [] 0, .exits [] 0⟩).spawns,
      r.args.head? ≠ some ("translate-to-ja".data) ∧
      r.args.head? ≠ some ("text-to-speech".data)) :=
  extract_failure_aborts_pipeline ("https://example.com/post".data)
    ("post".data) ("20260101_000000".data) false
    ⟨.exits [] 2, .exits [] 0, .exits [] 0, .exits [] 0⟩ [] 2 rfl (by decide)

/-! ## C2: the JSON boundaries of the recovery heuristic -/

theorem lastBraceIdx_eq_none_iff {s : List Char} :
    lastBraceIdx s = none ↔ '}' ∉ s := by
  induction s with
  | nil => simp [lastBraceIdx]
  | cons c cs ih =>
      rw [show lastBraceIdx (c :: cs) =
        (match lastBraceIdx cs with
         | some i => some (i + 1)
         | none => if c = '}' then some 0 else none) from rfl]
      cases hl : lastBraceIdx cs with
      | some k =>
          simp only []
          constructor
          · intro h
            exact absurd h (by simp)
          · intro h
            have hmem : '}' ∈ cs := by
              by_contra hnot
              rw [ih.mpr hnot] at hl
              cases hl
            exact absurd (List.mem_cons_of_mem c hmem) (by simpa using h)
      | none =>
          by_cases hc : c = '}'
          · subst hc
            simp
          · simp only [if_neg hc]
            rw [ih] at hl
            simp only [List.mem_cons, hl, or_false, true_iff]
            exact fun h => hc h.symm

theorem get?_ne_brace_of_not_mem {l : List Char} (h : '}' ∉ l) (j : Nat) :
    l.get? j ≠ some '}' :=
  fun hc => h (List.get?_mem hc)

theorem lastBraceIdx_spec {s : List Char} {i : Nat} :
    lastBraceIdx s = some i ↔
      (s.get? i = some '}' ∧ ∀ j, i < j → s.get? j ≠ some '}') := by
  induction s generalizing i with
  | nil =>
      constructor
      · intro h
        cases h
      · rintro ⟨h1, -⟩
        rw [List.get?_nil] at h1
        cases h1
  | cons c cs ih =>
      rw [show lastBraceIdx (c :: cs) =
        (match lastBraceIdx cs with
         | some k => some (k + 1)
         | none => if c = '}' then some 0 else none) from rfl]
      cases hl : lastBraceIdx cs with
      | some k =>
          have hk := ih.mp hl
          simp only []
          constructor
          · intro h
            obtain rfl : i = k + 1 := (Option.some_inj.mp h).symm
            refine ⟨by simpa using hk.1, ?_⟩
            intro j hj
            cases j with
            | zero => omega
            | succ j' =>
                rw [List.get?_cons_succ]
                exact hk.2 j' (by omega)
          · rintro ⟨hget, hmax⟩
            cases i with
            | zero =>
                exact absurd (by simpa using hk.1)
                  (hmax (k + 1) (Nat.succ_pos k))
            | succ m =>
                have hcs : lastBraceIdx cs = some m := by
                  apply ih.mpr
                  refine ⟨by simpa using hget, ?_⟩
                  intro j hj
                  have := hmax (j + 1) (by omega)
                  simpa using this
                rw [hl] at hcs
                rw [Option.some_inj.mp hcs]
      | none =>
          have hnone : '}' ∉ cs := lastBraceIdx_eq_none_iff.mp hl
          by_cases hc : c = '}'
          · subst hc
            rw [if_pos rfl]
            constructor
            · intro h
              obtain rfl : i = 0 := (Option.some_inj.mp h).symm
              refine ⟨by simp, ?_⟩
              intro j hj
              cases j with
              | zero => omega
              | succ j' =>
                  rw [List.get?_cons_succ]
                  exact get?_ne_brace_of_not_mem hnone j'
            · rintro ⟨hget, hmax⟩
              cases i with
              | zero => rfl
              | succ m =>
                  rw [List.get?_cons_succ] at hget
                  exact absurd hget (get?_ne_brace_of_not_mem hnone m)
          · rw [if_neg hc]
            constructor
            · intro h
              cases h
            · rintro ⟨hget, -⟩
              cases i with
              | zero =>
                  rw [List.get?_cons_zero] at hget
                  exact absurd (Option.some_inj.mp hget) hc
              | succ m =>
                  rw [List.get?_cons_succ] at hget
                  exact absurd hget (get?_ne_brace_of_not_mem hnone m)

theorem findBraceQuote_spec {s : List Char} {i : Nat} :
    findBraceQuote s = some i ↔
      (braceQuoteHead (s.drop i) = true ∧
        ∀ j, j < i → braceQuoteHead (s.drop j) = false) := by
  induction s generalizing i with
  | nil =>
      constructor
      · intro h
        cases h
      · rintro ⟨h1, -⟩
        rw [List.drop_nil] at h1
        exact absurd h1 (by decide)
  | cons c cs ih =>
      rw [show findBraceQuote (c :: cs) =
        (if braceQuoteHead (c :: cs) then some 0
         else (findBraceQuote cs).map (· + 1)) from rfl]
      by_cases h : braceQuoteHead (c :: cs) = true
      · rw [if_pos h]
        constructor
        · intro h0
          obtain rfl : i = 0 := (Option.some_inj.mp h0).symm
          exact ⟨h, fun j hj => absurd hj (Nat.not_lt_zero j)⟩
        · rintro ⟨-, h2⟩
          cases i with
          | zero => rfl
          | succ m =>
              have hfalse := h2 0 (Nat.succ_pos m)
              rw [List.drop_zero, h] at hfalse
              cases hfalse
      · rw [if_neg h, Option.map_eq_some']
        constructor
        · rintro ⟨a, ha, rfl⟩
          obtain ⟨h1, h2⟩ := ih.mp ha
          refine ⟨h1, ?_⟩
          intro j hj
          cases j with
          | zero => exact Bool.not_eq_true _ |>.mp h
          | succ j' => exact h2 j' (by omega)
        · rintro ⟨h1, h2⟩
          cases i with
          | zero => exact absurd h1 h
          | succ m =>
              refine ⟨m, ih.mpr ⟨h1, ?_⟩, rfl⟩
              intro j hj
              exact h2 (j + 1) (by omega)

/-- C2: the recovery takes as JSON start the first index where an opening
brace is followed (after optional whitespace) by a quote, as JSON end the
last closing brace anywhere, parses the inclusive substring, and on the
spec's example recovers `{title: T, content: C}`. -/
theorem extraction_json_recovery_spec :
    (∀ (s : List Char) (i : Nat), findBraceQuote s = some i ↔
      (braceQuoteHead (s.drop i) = true ∧
        ∀ j, j < i → braceQuoteHead (s.drop j) = false)) ∧
    (∀ (s : List Char) (i : Nat), lastBraceIdx s = some i ↔
      (s.get? i = some '}' ∧ ∀ j, i < j → s.get? j ≠ some '}')) ∧
    (∀ (raw : List Char) (i j : Nat) (v : JVal),
      findBraceQuote raw = some i → lastBraceIdx raw = some j →
      jsonParse (jsSubstring raw i (j + 1)) = some v →
      jsonRecover raw = .ok v) ∧
    (extractStage ("https://example.com/post".data) none
        (.exits [exampleChunk] 0)).2 =
      .ok (.obj [(("title".data), .str ("T".data)),
                 (("content".data), .str ("C".data))]) := by
  refine ⟨fun s i => findBraceQuote_spec, fun s i => lastBraceIdx_spec, ?_, ?_⟩
  · intro raw i j v hf hl hp
    simp [jsonRecover, hf, hl, hp]
  · rfl

theorem extraction_json_recovery_spec_witness :
    jsonRecover exampleChunk =
      .ok (.obj [(("title".data), .str ("T".data)),
                 (("content".data), .str ("C".data))]) :=
  extraction_json_recovery_spec.2.2.1 exampleChunk 14 45
    (.obj [(("title".data), .str ("T".data)),
           (("content".data), .str ("C".data))])
    (by decide) (by decide) (by rfl)

/-! ## C3: extraction parse failures -/

/-- C3, counterexample to the claim as stated: on captured output with no
recoverable JSON, extraction fails with the parse error, but the failure
message is the fixed string `Extraction failed: JSON not found in output`,
which does not include the raw captured output. -/
theorem extraction_error_message_omits_raw_output :
    (extractStage ("u".data) none (.exits [("no json here".data)] 0)).2 =
      .error (.parseError .jsonNotFound) ∧
    containsSub ("no json here".data)
      (errMessage (.parseError .jsonNotFound)) = false :=
  ⟨rfl, by decide⟩

/-- C3, amended: when no start boundary (brace followed, after optional
whitespace, by a quote) or no closing brace exists, or the selected substring
fails to parse, `extract` fails with a ParseError; in the missing-boundary
case its message is exactly `Extraction failed: JSON not found in output`
(the raw output is not included in the message). -/
theorem extraction_parse_failure_behavior :
    (∀ (url : List Char) (d : Option (List Char)) (chunks : List (List Char)),
      (findBraceQuote (jsTrim chunks.flatten) = none ∨
        lastBraceIdx (jsTrim chunks.flatten) = none) →
      (extractStage url d (.exits chunks 0)).2 =
        .error (.parseError .jsonNotFound)) ∧
    (∀ (url : List Char) (d : Option (List Char)) (chunks : List (List Char))
        (i j : Nat),
      findBraceQuote (jsTrim chunks.flatten) = some i →
      lastBraceIdx (jsTrim chunks.flatten) = some j →
      jsonParse (jsSubstring (jsTrim chunks.flatten) i (j + 1)) = none →
      (extractStage url d (.exits chunks 0)).2 =
        .error (.parseError .badJson)) ∧
    errMessage (.parseError .jsonNotFound) =
      ("Extraction failed: JSON not found in output".data) := by
  have hstage : ∀ (url : List Char) (d : Option (List Char))
      (chunks : List (List Char)),
      (extractStage url d (.exits chunks 0)).2 =
        jsonRecover (jsTrim chunks.flatten) := by
    intro url d chunks
    simp [extractStage, runCap, runSpawn, stdinAction, Except.map, Except.bind,
      capturedText, foldl_append_eq_join]
  refine ⟨?_, ?_, rfl⟩
  · intro url d chunks h
    rw [hstage]
    rcases h with h | h
    · cases h2 : lastBraceIdx (jsTrim chunks.flatten) <;>
        simp [jsonRecover, h, h2]
    · cases h1 : findBraceQuote (jsTrim chunks.flatten) <;>
        simp [jsonRecover, h, h1]
  · intro url d chunks i j hf hl hp
    rw [hstage]
    simp [jsonRecover, hf, hl, hp]

theorem extraction_parse_failure_behavior_witness :
    (extractStage ("u".data) none
        (.exits [("\x7b no quote after brace".data)] 0)).2 =
      .error (.parseError .jsonNotFound) :=
  extraction_parse_failure_behavior.1 ("u".data) none
    [("\x7b no quote after brace".data)] (Or.inl (by decide))

/-! ## C7: banner-line stripping in `translate` -/

theorem headI_mem_of_ne_nil {α : Type} [Inhabited α] {l : List α}
    (h : l ≠ []) : l.headI ∈ l := by
  cases l with
  | nil => exact absurd rfl h
  | cons a t => exact List.mem_cons_self a t

theorem linesOf_ne_nil (s : List Char) : linesOf s ≠ [] := by
  cases s with
  | nil => simp [linesOf]
  | cons c cs =>
      by_cases h : c = '\n' <;> simp [linesOf, h]

theorem linesOf_cons_nl (cs : List Char) :
    linesOf ('\n' :: cs) = [] :: linesOf cs := by
  simp [linesOf]

theorem linesOf_cons_other {c : Char} (cs : List Char) (h : c ≠ '\n') :
    linesOf (c :: cs) =
      (c :: (linesOf cs).headI) :: (linesOf cs).tail := by
  simp [linesOf, h]

theorem splitSegs_cons_term {c : Char} (cs : List Char)
    (h : jsLineTerm c = true) :
    splitSegs (c :: cs) = ([] :: (splitSegs cs).1, c :: (splitSegs cs).2) := by
  simp [splitSegs, h]

theorem splitSegs_cons_nonterm {c : Char} (cs : List Char)
    (h : jsLineTerm c = false) :
    splitSegs (c :: cs) =
      ((c :: (splitSegs cs).1.headI) :: (splitSegs cs).1.tail,
        (splitSegs cs).2) := by
  simp [splitSegs, h]

theorem splitSegs_fst_ne_nil (s : List Char) : (splitSegs s).1 ≠ [] := by
  cases s with
  | nil => simp [splitSegs]
  | cons c cs =>
      cases h : jsLineTerm c
      · rw [splitSegs_cons_nonterm cs h]
        simp
      · rw [splitSegs_cons_term cs h]
        simp

theorem splitSegs_len (s : List Char) :
    (splitSegs s).1.length = (splitSegs s).2.length + 1 := by
  induction s with
  | nil => rfl
  | cons c cs ih =>
      cases h : jsLineTerm c
      · have hne := splitSegs_fst_ne_nil cs
        have hpos : 1 ≤ (splitSegs cs).1.length :=
          Nat.one_le_iff_ne_zero.mpr (by simpa using hne)
        rw [splitSegs_cons_nonterm cs h]
        simp only [List.length_cons, List.length_tail]
        omega
      · rw [splitSegs_cons_term cs h]
        simp only [List.length_cons]
        omega

theorem splitSegs_of_nl {s : List Char}
    (h : ∀ c ∈ s, jsLineTerm c = true → c = '\n') :
    (splitSegs s).1 = linesOf s ∧ ∀ t ∈ (splitSegs s).2, t = '\n' := by
  induction s with
  | nil => exact ⟨rfl, by simp [splitSegs]⟩
  | cons c cs ih =>
      have ihh := ih (fun c' hc' => h c' (List.mem_cons_of_mem c hc'))
      cases hterm : jsLineTerm c
      · have hcn : c ≠ '\n' := by
          intro hc
          subst hc
          exact absurd hterm (by decide)
        rw [splitSegs_cons_nonterm cs hterm, linesOf_cons_other cs hcn]
        exact ⟨by rw [ihh.1], ihh.2⟩
      · have hcn : c = '\n' := h c (List.mem_cons_self c cs) hterm
        subst hcn
        rw [splitSegs_cons_term cs hterm, linesOf_cons_nl cs]
        refine ⟨by rw [ihh.1], ?_⟩
        intro t ht
        rcases List.mem_cons.mp ht with h1 | h1
        · exact h1
        · exact ihh.2 t h1

theorem no_nl_in_linesOf (s : List Char) : ∀ l ∈ linesOf s, '\n' ∉ l := by
  induction s with
  | nil =>
      intro l hl
      rw [List.mem_singleton.mp hl]
      simp
  | cons c cs ih =>
      intro l hl
      by_cases hc : c = '\n'
      · subst hc
        rw [linesOf_cons_nl cs] at hl
        rcases List.mem_cons.mp hl with h1 | h1
        · rw [h1]
          simp
        · exact ih l h1
      · rw [linesOf_cons_other cs hc] at hl
        rcases List.mem_cons.mp hl with h1 | h1
        · subst h1
          intro hmem
          rcases List.mem_cons.mp hmem with h2 | h2
          · exact hc h2.symm
          · have hmem := headI_mem_of_ne_nil (linesOf_ne_nil cs)
            exact ih ((linesOf cs).headI) hmem h2
        · exact ih l (List.mem_of_mem_tail h1)

theorem linesOf_no_nl {l : List Char} (h : '\n' ∉ l) : linesOf l = [l] := by
  induction l with
  | nil => rfl
  | cons c cs ih =>
      have hc : c ≠ '\n' := fun hh => h (hh ▸ List.mem_cons_self c cs)
      have hcs : '\n' ∉ cs := fun hh => h (List.mem_cons_of_mem c hh)
      rw [linesOf_cons_other cs hc, ih hcs]
      rfl

theorem linesOf_append_nl {l rest : List Char} (h : '\n' ∉ l) :
    linesOf (l ++ '\n' :: rest) = l :: linesOf rest := by
  induction l with
  | nil =>
      rw [List.nil_append, linesOf_cons_nl rest]
  | cons c cs ih =>
      have hc : c ≠ '\n' := fun hh => h (hh ▸ List.mem_cons_self c cs)
      have hcs : '\n' ∉ cs := fun hh => h (List.mem_cons_of_mem c hh)
      rw [List.cons_append, linesOf_cons_other _ hc, ih hcs]
      rfl

theorem linesOf_joinSegs {ls : List (List Char)} {seps : List Char}
    (hlen : ls.length = seps.length + 1) (hsep : ∀ t ∈ seps, t = '\n')
    (hl : ∀ l ∈ ls, '\n' ∉ l) :
    linesOf (joinSegs ls seps) = ls := by
  induction seps generalizing ls with
  | nil =>
      obtain ⟨l, rfl⟩ : ∃ l, ls = [l] := by
        cases ls with
        | nil => simp at hlen
        | cons a t =>
            cases t with
            | nil => exact ⟨a, rfl⟩
            | cons b t2 => simp at hlen
      show linesOf l = [l]
      exact linesOf_no_nl (hl l (List.mem_singleton.mpr rfl))
  | cons t ts ih =>
      cases ls with
      | nil => simp at hlen
      | cons l ls' =>
          cases ls' with
          | nil => simp at hlen
          | cons l2 ls'' =>
              have hts : t = '\n' := hsep t (List.mem_cons_self t ts)
              subst hts
              show linesOf (l ++ '\n' :: joinSegs (l2 :: ls'') ts) = _
              rw [linesOf_append_nl (hl l (List.mem_cons_self l _))]
              congr 1
              refine ih (by simpa using hlen) ?_ ?_
              · exact fun t' ht' => hsep t' (List.mem_cons_of_mem _ ht')
              · exact fun l' hl' => hl l' (List.mem_cons_of_mem _ hl')

/-- C7, counterexample to the claim as stated: a captured translation output
consisting of the bare banner prefix `[dotenv@` (no further character) is a
line beginning with the banner prefix, yet the regex `^\[dotenv@.+` does not
match it (`.+` needs one more character), so it survives into the final
trimmed result. -/
theorem banner_line_survives_counterexample :
    (translateStage (some (.str ("x".data))) none
        (.exits [("[dotenv@".data)] 0)).2 = .ok ("[dotenv@".data) ∧
    List.isPrefixOf dotenvMark ("[dotenv@".data) = true ∧
    linesOf ("[dotenv@".data) = [("[dotenv@".data)] :=
  ⟨rfl, by decide, by decide⟩

/-- C7, amended: the banner strip empties exactly the lines that begin with
the prefix `[dotenv@` followed by at least one further character, wherever
they occur, and `translate` returns the banner-stripped capture trimmed;
a line consisting of exactly the prefix is kept. -/
theorem banner_strip_per_line_behavior :
    (∀ s : List Char, (∀ c ∈ s, jsLineTerm c = true → c = '\n') →
      linesOf (stripDotenv s) =
        (linesOf s).map (fun l => if dotenvLineHit l then [] else l)) ∧
    (∀ l : List Char, dotenvLineHit l = true ↔
      (List.isPrefixOf dotenvMark l = true ∧ dotenvMark.length < l.length)) ∧
    (∀ (text : List Char) (chunks : List (List Char)) (d : Option (List Char)),
      text ≠ [] →
      (translateStage (some (.str text)) d (.exits chunks 0)).2 =
        .ok (jsTrim (stripDotenv (jsTrim chunks.flatten)))) := by
  refine ⟨?_, ?_, ?_⟩
  · intro s h
    obtain ⟨hseg, hsep⟩ := splitSegs_of_nl h
    have hlen := splitSegs_len s
    rw [stripDotenv, hseg]
    apply linesOf_joinSegs
    · rw [List.length_map, ← hseg]
      exact hlen
    · exact hsep
    · intro l hmem
      obtain ⟨l0, hl0, rfl⟩ := List.mem_map.mp hmem
      by_cases hhit : dotenvLineHit l0 = true
      · simp [hhit]
      · rw [if_neg hhit]
        exact no_nl_in_linesOf s l0 hl0
  · intro l
    rw [dotenvLineHit, Bool.and_eq_true, decide_eq_true_iff]
  · intro text chunks d h1
    have htr : jvTruthy (.str text) = true := by
      cases text with
      | nil => exact absurd rfl h1
      | cons c cs => rfl
    simp [translateStage, htr, runCap, runSpawn, capturedText,
      foldl_append_eq_join, Except.map]

theorem banner_strip_per_line_behavior_witness :
    linesOf (stripDotenv ("a\n[dotenv@16 injecting\nb".data)) =
      (linesOf ("a\n[dotenv@16 injecting\nb".data)).map
        (fun l => if dotenvLineHit l then [] else l) :=
  banner_strip_per_line_behavior.1 ("a\n[dotenv@16 injecting\nb".data)
    (by decide)

end BlogDub
